import Mathlib

/-!
Shallow embedding of the orderbook backend (src/index.ts) for the two-outcome
prediction market with assets HYPE and FLOP.

Modelling conventions:
* JavaScript numbers are modelled as rationals.  The source only uses the
  arithmetic operations +, -, *, /, Math.min and x.toFixed(n); toFixed is
  modelled as rounding to n decimal places (round half up), written toFixed2
  and toFixed4 below.
* The global mutable array orderBook is modelled by explicit state passing:
  every route handler becomes a function from a book (List Order) to a pair
  of result and new book.
* Array.prototype.sort with a numeric comparator is a stable sort; it is
  modelled by List.insertionSort (which is stable) on the corresponding
  ordering of prices.
* The matching loops mutate the consumed resting orders through the aliases
  stored in the filtered candidate arrays.  This is modelled by having the
  sweep return a list of pairs (old order, updated order) and rewriting the
  book pointwise with applyUpd; orders are compared by full value, which
  coincides with the JavaScript reference semantics whenever no two distinct
  resting orders are equal on all fields.
* The status strings "open" / "partial" / "executed" are the constructors
  stOpen / stPart / stExec.
-/

/-- Side of an order: the source field Order.type with values 'buy' | 'sell'. -/
inductive Side where
  | buy
  | sell
  deriving DecidableEq, Repr

/-- The two complementary assets of the market. -/
inductive Asset where
  | HYPE
  | FLOP
  deriving DecidableEq, Repr

/-- Order status: 'open' | 'partial' | 'executed' in the source. -/
inductive Status where
  | stOpen
  | stPart
  | stExec
  deriving DecidableEq, Repr

/-- The Order interface of the source.  amount is the notional; potentialGain
is only populated for sell orders (Option models the optional field). -/
structure Order where
  id : ℕ
  type : Side
  asset : Asset
  price : ℚ
  amount : ℚ
  shares : ℚ
  potentialGain : Option ℚ
  status : Status
  deriving DecidableEq, Repr

/-- The in-memory order book, the global array orderBook of the source. -/
abbrev Book := List Order

/-- x.toFixed(2) together with the unary + coercion back to a number:
rounding to two decimal places. -/
def toFixed2 (x : ℚ) : ℚ := ((round (x * 100) : ℤ) : ℚ) / 100

/-- x.toFixed(4) together with the unary + coercion back to a number:
rounding to four decimal places. -/
def toFixed4 (x : ℚ) : ℚ := ((round (x * 10000) : ℤ) : ℚ) / 10000

/-- Comparator (a, b) => a.price - b.price of the source, as the ordering
"a sorts no later than b": ascending by price. -/
def priceLe (a b : Order) : Prop := a.price ≤ b.price

/-- Comparator (a, b) => b.price - a.price of the source: descending by
price. -/
def priceGe (a b : Order) : Prop := b.price ≤ a.price

instance : DecidableRel priceLe := fun a b => inferInstanceAs (Decidable (a.price ≤ b.price))

instance : DecidableRel priceGe := fun a b => inferInstanceAs (Decidable (b.price ≤ a.price))

instance : IsTotal Order priceLe := ⟨fun a b => le_total a.price b.price⟩

instance : IsTrans Order priceLe := ⟨fun _ _ _ h h' => le_trans h h'⟩

instance : IsTotal Order priceGe := ⟨fun a b => le_total b.price a.price⟩

instance : IsTrans Order priceGe := ⟨fun _ _ _ h h' => le_trans h' h⟩

/-- sortOrders of the source: filter the book to one side and sort it,
ascending by price for sells and descending for buys (stable sort). -/
def sortOrders (book : Book) (t : Side) : List Order :=
  match t with
  | Side.sell => ((book.filter fun o => decide (o.type = Side.sell)).insertionSort priceLe)
  | Side.buy => ((book.filter fun o => decide (o.type = Side.buy)).insertionSort priceGe)

/-- updateSortedOrders of the source: rebuild the book with the given side
sorted; for 'buy' the sorted buys come first, for 'sell' they come last,
exactly as the two array spreads in the source. -/
def updateSortedOrders (book : Book) (t : Side) : Book :=
  match t with
  | Side.buy => sortOrders book Side.buy ++ book.filter fun o => decide (o.type ≠ Side.buy)
  | Side.sell => (book.filter fun o => decide (o.type ≠ Side.sell)) ++ sortOrders book Side.sell

/-- One executed trade as pushed onto executedTrades by the matching loops
(the source names the id field sellOrderId or buyOrderId depending on the
loop; value is tradeCost / tradeRevenue). -/
structure Trade where
  counterId : ℕ
  executedShares : ℚ
  price : ℚ
  value : ℚ
  deriving DecidableEq, Repr

/-- Output of the shared share-for-share consumption loop. -/
structure SweepOut where
  remaining : ℚ
  totalValue : ℚ
  trades : List Trade
  updates : List (Order × Order)
  deriving DecidableEq, Repr

/-- The greedy consumption loop shared (verbatim, up to field names) by
matchLimitBuyOrder, matchLimitSellOrder, executeMarketSellHype and
executeMarketSellFlop: walk the candidate orders, execute
min(remainingShares, order.shares) at the candidate price, recompute the
candidate's amount with toFixed(2) and set its status to executed (when its
shares hit zero) or partial. -/
def consumeOrders : List Order → ℚ → SweepOut
  | [], r => ⟨r, 0, [], []⟩
  | c :: cs, r =>
    if r ≤ 0 then ⟨r, 0, [], []⟩
    else
      let ex := min r c.shares
      let c' : Order :=
        { c with
          shares := c.shares - ex
          amount := toFixed2 ((c.shares - ex) * c.price)
          status := if c.shares - ex = 0 then Status.stExec else Status.stPart }
      let rest := consumeOrders cs (r - ex)
      ⟨rest.remaining, ex * c.price + rest.totalValue,
        ⟨c.id, ex, c.price, ex * c.price⟩ :: rest.trades,
        (c, c') :: rest.updates⟩

/-- Replay an in-place mutation list: an order equal to the old value of a
consumed candidate is replaced by the candidate's updated value. -/
def applyUpd : List (Order × Order) → Order → Order
  | [], o => o
  | p :: rest, o => if p.1 = o then p.2 else applyUpd rest o

/-- Rewrite the whole book through the mutation list. -/
def applyUpdates (us : List (Order × Order)) (book : Book) : Book :=
  book.map (applyUpd us)

/-- Result object of matchLimitBuyOrder / matchLimitSellOrder. -/
structure LimitMatchOut where
  newOrderId : ℕ
  executedShares : ℚ
  averagePrice : ℚ
  trades : List Trade
  remainingOrder : Option Order
  deriving DecidableEq, Repr

/-- Candidate sells for an incoming limit buy: same asset, price at most the
incoming price, sorted ascending by price (the source filters and then sorts
the filtered copy in place). -/
def buyMatchCandidates (newBuy : Order) (book : Book) : List Order :=
  ((book.filter fun o =>
    decide (o.type = Side.sell ∧ o.asset = newBuy.asset ∧ o.price ≤ newBuy.price)).insertionSort
      priceLe)

/-- matchLimitBuyOrder of the source: sweep the compatible sells, mutate the
consumed ones, and either return a partial remainder of the incoming order or
mark it fully executed. -/
def matchLimitBuyOrder (newBuy : Order) (book : Book) : LimitMatchOut × Book :=
  let cands := buyMatchCandidates newBuy book
  let s := consumeOrders cands newBuy.shares
  let executedTotal := newBuy.shares - s.remaining
  let avg := if 0 < executedTotal then s.totalValue / executedTotal else 0
  let book' := applyUpdates s.updates book
  let rem : Option Order :=
    if 0 < s.remaining then
      some { newBuy with
              shares := s.remaining
              amount := toFixed2 (s.remaining * newBuy.price)
              status := Status.stPart }
    else none
  (⟨newBuy.id, executedTotal, toFixed4 avg, s.trades, rem⟩, book')

/-- Candidate buys for an incoming limit sell: same asset, price at least the
incoming price, sorted descending by price. -/
def sellMatchCandidates (newSell : Order) (book : Book) : List Order :=
  ((book.filter fun o =>
    decide (o.type = Side.buy ∧ o.asset = newSell.asset ∧ newSell.price ≤ o.price)).insertionSort
      priceGe)

/-- matchLimitSellOrder of the source; the remainder additionally refreshes
potentialGain to mirror the recomputed amount. -/
def matchLimitSellOrder (newSell : Order) (book : Book) : LimitMatchOut × Book :=
  let cands := sellMatchCandidates newSell book
  let s := consumeOrders cands newSell.shares
  let executedTotal := newSell.shares - s.remaining
  let avg := if 0 < executedTotal then s.totalValue / executedTotal else 0
  let book' := applyUpdates s.updates book
  let rem : Option Order :=
    if 0 < s.remaining then
      some { newSell with
              shares := s.remaining
              amount := toFixed2 (s.remaining * newSell.price)
              potentialGain := some (toFixed2 (s.remaining * newSell.price))
              status := Status.stPart }
    else none
  (⟨newSell.id, executedTotal, toFixed4 avg, s.trades, rem⟩, book')

/-- Response of the limit-order routes: a 400 for an out-of-range price, the
matching result, or the freshly resting order. -/
inductive LimitRouteRes where
  | badRequest
  | matched (r : LimitMatchOut)
  | rested (o : Order)
  deriving DecidableEq, Repr

/-- The POST /buy route: validate the price, derive shares with toFixed(4),
and either run the limit matching (when some compatible sell exists) or rest
the new order; in both cases the buy side is re-sorted.  newId stands for the
Date.now() id. -/
def buyRoute (book : Book) (asset : Asset) (price amount : ℚ) (newId : ℕ) :
    LimitRouteRes × Book :=
  if price ≤ 0 ∨ 1 < price then (LimitRouteRes.badRequest, book)
  else
    let shares := toFixed4 (amount / price)
    let newOrder : Order := ⟨newId, Side.buy, asset, price, amount, shares, none, Status.stOpen⟩
    if (book.find? fun o =>
        decide (o.type = Side.sell ∧ o.asset = asset ∧ o.price ≤ price)).isSome then
      let res := matchLimitBuyOrder newOrder book
      let book2 := res.2.filter fun o => decide (o.status ≠ Status.stExec)
      match res.1.remainingOrder with
      | some rem => (LimitRouteRes.matched res.1, updateSortedOrders (book2 ++ [rem]) Side.buy)
      | none => (LimitRouteRes.matched res.1, book2)
    else (LimitRouteRes.rested newOrder, updateSortedOrders (book ++ [newOrder]) Side.buy)

/-- The POST /sell route: validate the price, derive potentialGain with
toFixed(2), and either run the limit matching (when some compatible buy
exists) or rest the new order; the sell side is re-sorted. -/
def sellRoute (book : Book) (asset : Asset) (price shares : ℚ) (newId : ℕ) :
    LimitRouteRes × Book :=
  if price ≤ 0 ∨ 1 < price then (LimitRouteRes.badRequest, book)
  else
    let pg := toFixed2 (shares * price)
    let newOrder : Order := ⟨newId, Side.sell, asset, price, pg, shares, some pg, Status.stOpen⟩
    if (book.find? fun o =>
        decide (o.type = Side.buy ∧ o.asset = asset ∧ price ≤ o.price)).isSome then
      let res := matchLimitSellOrder newOrder book
      let book2 := res.2.filter fun o => decide (o.status ≠ Status.stExec)
      match res.1.remainingOrder with
      | some rem => (LimitRouteRes.matched res.1, updateSortedOrders (book2 ++ [rem]) Side.sell)
      | none => (LimitRouteRes.matched res.1, book2)
    else (LimitRouteRes.rested newOrder, updateSortedOrders (book ++ [newOrder]) Side.sell)

/-- Result of a market-buy helper: either the error object or the totals;
the direct sweeps also report priceImpact (the cross-hedge helpers do not,
hence the Option). -/
inductive MarketBuyResult where
  | fail
  | hit (totalShares priceFinal : ℚ) (priceImpact : Option ℚ)
  deriving DecidableEq, Repr

/-- The loop of executeMarketBuyHype / executeMarketBuyFlop: consume each
sell order's notional up to the remaining budget, converting to shares at the
order's price; accumulator is (remainingAmount, totalShares, priceFinal). -/
def directLoop : List Order → ℚ → ℚ → ℚ → ℚ × ℚ × ℚ
  | [], r, ts, pf => (r, ts, pf)
  | o :: os, r, ts, pf =>
    if r ≤ 0 then (r, ts, pf)
    else
      let tradable := min o.amount r
      directLoop os (r - tradable) (ts + tradable / o.price) o.price

/-- executeMarketBuyHype: sweep the HYPE sells (ascending); on success report
priceImpact = priceFinal - (sellOrders[0]?.price || priceFinal), where the
JavaScript || also falls back when the first price is 0 (falsy). -/
def executeMarketBuyHype (book : Book) (amount : ℚ) : MarketBuyResult :=
  let sellOrders := (sortOrders book Side.sell).filter fun o => decide (o.asset = Asset.HYPE)
  let out := directLoop sellOrders amount 0 0
  if 0 < out.1 then MarketBuyResult.fail
  else
    let first :=
      match sellOrders.head? with
      | some o => if o.price = 0 then out.2.2 else o.price
      | none => out.2.2
    MarketBuyResult.hit out.2.1 out.2.2 (some (out.2.2 - first))

/-- executeMarketBuyFlop: the same sweep over the FLOP sells. -/
def executeMarketBuyFlop (book : Book) (amount : ℚ) : MarketBuyResult :=
  let sellOrders := (sortOrders book Side.sell).filter fun o => decide (o.asset = Asset.FLOP)
  let out := directLoop sellOrders amount 0 0
  if 0 < out.1 then MarketBuyResult.fail
  else
    let first :=
      match sellOrders.head? with
      | some o => if o.price = 0 then out.2.2 else o.price
      | none => out.2.2
    MarketBuyResult.hit out.2.1 out.2.2 (some (out.2.2 - first))

/-- The loop of executeFlopBuyImpact / executeHypeBuyImpact.  Note that the
source computes requiredShares from the ORIGINAL amount parameter on every
iteration (amount / priceOposto), not from the running remainingAmount; the
first argument below is that fixed original amount. -/
def crossLoop (amount : ℚ) : List Order → ℚ → ℚ → ℚ → ℚ × ℚ × ℚ
  | [], r, ts, pf => (r, ts, pf)
  | o :: os, r, ts, pf =>
    let priceOposto := 1 - o.price
    let requiredShares := amount / priceOposto
    if requiredShares ≤ o.shares then (0, ts + requiredShares, priceOposto)
    else crossLoop amount os (r - o.shares * priceOposto) (ts + o.shares) pf

/-- executeFlopBuyImpact: fill a HYPE purchase against the resting FLOP buys
at the synthetic price 1 - order.price. -/
def executeFlopBuyImpact (book : Book) (amount : ℚ) : MarketBuyResult :=
  let cands := (sortOrders book Side.buy).filter fun o => decide (o.asset = Asset.FLOP)
  let out := crossLoop amount cands amount 0 0
  if 0 < out.1 then MarketBuyResult.fail
  else MarketBuyResult.hit out.2.1 out.2.2 none

/-- executeHypeBuyImpact: fill a FLOP purchase against the resting HYPE buys
at the synthetic price 1 - order.price. -/
def executeHypeBuyImpact (book : Book) (amount : ℚ) : MarketBuyResult :=
  let cands := (sortOrders book Side.buy).filter fun o => decide (o.asset = Asset.HYPE)
  let out := crossLoop amount cands amount 0 0
  if 0 < out.1 then MarketBuyResult.fail
  else MarketBuyResult.hit out.2.1 out.2.2 none

/-- The priceFinal field as the JavaScript route reads it: undefined (none)
on an error object. -/
def jsPriceFinal : MarketBuyResult → Option ℚ
  | MarketBuyResult.fail => none
  | MarketBuyResult.hit _ pf _ => some pf

/-- The ternary a.priceFinal <= b.priceFinal ? a : b of the market-buy
routes.  When either side is an error object its priceFinal is undefined and
the JavaScript comparison is false, so b is chosen. -/
def pickResult (a b : MarketBuyResult) : MarketBuyResult :=
  match jsPriceFinal a, jsPriceFinal b with
  | some pa, some pb => if pa ≤ pb then a else b
  | _, _ => b

/-- The POST /market-buy-hype route: run the direct HYPE sweep and the FLOP
cross-hedge, answer 400 (none) only when both error, otherwise 201 with the
ternary's pick.  The book is never written by this route. -/
def marketBuyHypeRoute (book : Book) (amount : ℚ) : Option MarketBuyResult × Book :=
  match executeMarketBuyHype book amount, executeFlopBuyImpact book amount with
  | MarketBuyResult.fail, MarketBuyResult.fail => (none, book)
  | h, f => (some (pickResult h f), book)

/-- The POST /market-buy-flop route, symmetric to marketBuyHypeRoute. -/
def marketBuyFlopRoute (book : Book) (amount : ℚ) : Option MarketBuyResult × Book :=
  match executeMarketBuyFlop book amount, executeHypeBuyImpact book amount with
  | MarketBuyResult.fail, MarketBuyResult.fail => (none, book)
  | f, h => (some (pickResult f h), book)

/-- Result of a market sell. -/
inductive MarketSellRes where
  | fail
  | ok (executedShares totalRevenue averagePrice : ℚ) (trades : List Trade)
  deriving DecidableEq, Repr

/-- executeMarketSellHype: consume the HYPE buys best (highest) price first,
mutating each consumed order in place; the mutations happen before the
liquidity check, so they are retained even when the sweep then fails. -/
def executeMarketSellHype (book : Book) (shares : ℚ) : MarketSellRes × Book :=
  let cands := (sortOrders book Side.buy).filter fun o => decide (o.asset = Asset.HYPE)
  let s := consumeOrders cands shares
  let book' := applyUpdates s.updates book
  if 0 < s.remaining then (MarketSellRes.fail, book')
  else
    let ex := shares - s.remaining
    (MarketSellRes.ok ex s.totalValue (toFixed4 (if 0 < ex then s.totalValue / ex else 0))
      s.trades, book')

/-- executeMarketSellFlop, symmetric to executeMarketSellHype. -/
def executeMarketSellFlop (book : Book) (shares : ℚ) : MarketSellRes × Book :=
  let cands := (sortOrders book Side.buy).filter fun o => decide (o.asset = Asset.FLOP)
  let s := consumeOrders cands shares
  let book' := applyUpdates s.updates book
  if 0 < s.remaining then (MarketSellRes.fail, book')
  else
    let ex := shares - s.remaining
    (MarketSellRes.ok ex s.totalValue (toFixed4 (if 0 < ex then s.totalValue / ex else 0))
      s.trades, book')

/-- The POST /market-sell-hype route: on success the fully executed orders
are filtered out of the book; on error the route returns early and the book
keeps whatever the sweep already mutated. -/
def marketSellHypeRoute (book : Book) (shares : ℚ) : MarketSellRes × Book :=
  match executeMarketSellHype book shares with
  | (MarketSellRes.fail, book') => (MarketSellRes.fail, book')
  | (r, book') => (r, book'.filter fun o => decide (o.status ≠ Status.stExec))

/-- The POST /market-sell-flop route, symmetric to marketSellHypeRoute. -/
def marketSellFlopRoute (book : Book) (shares : ℚ) : MarketSellRes × Book :=
  match executeMarketSellFlop book shares with
  | (MarketSellRes.fail, book') => (MarketSellRes.fail, book')
  | (r, book') => (r, book'.filter fun o => decide (o.status ≠ Status.stExec))

/-- The GET /orders route: the book members whose status is not executed. -/
def listOpenOrders (book : Book) : List Order :=
  book.filter fun o => decide (o.status ≠ Status.stExec)

/-- The operations of the adapter layer that can touch the book. -/
inductive Op where
  | limitBuy (asset : Asset) (price amount : ℚ) (newId : ℕ)
  | limitSell (asset : Asset) (price shares : ℚ) (newId : ℕ)
  | mBuyHype (amount : ℚ)
  | mBuyFlop (amount : ℚ)
  | mSellHype (shares : ℚ)
  | mSellFlop (shares : ℚ)

/-- The book after one operation. -/
def applyOp (book : Book) : Op → Book
  | Op.limitBuy a p m i => (buyRoute book a p m i).2
  | Op.limitSell a p s i => (sellRoute book a p s i).2
  | Op.mBuyHype m => (marketBuyHypeRoute book m).2
  | Op.mBuyFlop m => (marketBuyFlopRoute book m).2
  | Op.mSellHype s => (marketSellHypeRoute book s).2
  | Op.mSellFlop s => (marketSellFlopRoute book s).2

/-- Well-formedness of the caller-supplied quantities: a limit buy's notional
is a non-negative whole number of cents and a limit sell's share count is
non-negative (the spec's boundary constraints notional > 0 / shares > 0,
relaxed to ≥ 0). -/
def OpOk : Op → Prop
  | Op.limitBuy _ _ m _ => 0 ≤ m ∧ ∃ k : ℤ, m = (k : ℚ) / 100
  | Op.limitSell _ _ s _ => 0 ≤ s
  | _ => True

/-- Books reachable from the empty book by any operations. -/
inductive Reachable : Book → Prop where
  | nil : Reachable []
  | step (b : Book) (op : Op) : Reachable b → Reachable (applyOp b op)

/-- Books reachable from the empty book by well-formed operations. -/
inductive ReachableOk : Book → Prop where
  | nil : ReachableOk []
  | step (b : Book) (op : Op) : ReachableOk b → OpOk op → ReachableOk (applyOp b op)

/-- The per-order invariant of the spec: the notional equals the shares times
the price rounded to two decimals, and shares are non-negative. -/
def OrderInv (o : Order) : Prop :=
  o.amount = toFixed2 (o.shares * o.price) ∧ 0 ≤ o.shares

/-- The invariant over a whole book. -/
def BookInv (b : Book) : Prop := ∀ o ∈ b, OrderInv o

/-- The prices of the subsequence of the book lying on one side. -/
def sidePrices (t : Side) (b : Book) : List ℚ :=
  (b.filter fun o => decide (o.type = t)).map Order.price

/-- The book-ordering invariant: buys non-increasing, sells non-decreasing. -/
def OrderedBook (b : Book) : Prop :=
  List.Sorted (fun x y : ℚ => y ≤ x) (sidePrices Side.buy b) ∧
    List.Sorted (fun x y : ℚ => x ≤ y) (sidePrices Side.sell b)

/-- Modelled from the spec wording of the greedy sweep (section 4.1): iterate
the candidates in the given order; stop when the remaining incoming shares
are exhausted; each trade executes exactly min(remaining, candidate.shares)
shares at the CANDIDATE's resting price, transferring executed x price. -/
inductive SweepFollowsSpec : ℚ → List Order → List Trade → Prop where
  | exhausted (r : ℚ) : SweepFollowsSpec r [] []
  | stop (r : ℚ) (c : Order) (cs : List Order) (h : r ≤ 0) : SweepFollowsSpec r (c :: cs) []
  | step (r : ℚ) (c : Order) (cs : List Order) (t : Trade) (ts : List Trade)
      (hr : 0 < r)
      (hid : t.counterId = c.id)
      (hshares : t.executedShares = min r c.shares)
      (hprice : t.price = c.price)
      (hvalue : t.value = t.executedShares * c.price)
      (rest : SweepFollowsSpec (r - t.executedShares) cs ts) :
      SweepFollowsSpec r (c :: cs) (t :: ts)

/-- Concrete book: a single HYPE sell at 0.50 with notional 5 (10 shares). -/
def exBookC1 : Book := [⟨1, Side.sell, Asset.HYPE, 1/2, 5, 10, none, Status.stOpen⟩]

/-- Concrete book of spec scenario 4: one FLOP buy at 0.70 for 100 shares. -/
def exBookC2 : Book := [⟨2, Side.buy, Asset.FLOP, 7/10, 70, 100, none, Status.stOpen⟩]

/-- Concrete book: two FLOP buys at 0.50, for 10 and for 100 shares. -/
def exBookC3 : Book :=
  [⟨3, Side.buy, Asset.FLOP, 1/2, 5, 10, none, Status.stOpen⟩,
   ⟨4, Side.buy, Asset.FLOP, 1/2, 50, 100, none, Status.stOpen⟩]

/-- Concrete book: a single HYPE sell at 0.40 with notional 4 (10 shares). -/
def exBookC4 : Book := [⟨5, Side.sell, Asset.HYPE, 2/5, 4, 10, none, Status.stOpen⟩]

/-- Concrete book: a single HYPE buy at 0.50 for 10 shares. -/
def exBookC5 : Book := [⟨6, Side.buy, Asset.HYPE, 1/2, 5, 10, none, Status.stOpen⟩]

/-- Concrete book: a single HYPE buy at 0.60 for 10 shares. -/
def exBookC9 : Book := [⟨7, Side.buy, Asset.HYPE, 3/5, 6, 10, none, Status.stOpen⟩]

/-- Concrete book: a single executed HYPE buy (as left behind by a failed
market sell). -/
def exBookExec : Book := [⟨1, Side.buy, Asset.HYPE, 1/2, 0, 0, none, Status.stExec⟩]

/-- Concrete book: a single HYPE buy at 0.50 for 10 shares (id 2), used for a
successful market sell of 4 shares. -/
def exBookW : Book := [⟨2, Side.buy, Asset.HYPE, 1/2, 5, 10, none, Status.stOpen⟩]

/-! ### Rounding evaluation helpers -/

theorem roundEval (x : ℚ) (n : ℤ) (h₁ : (n : ℚ) ≤ x + 1/2) (h₂ : x + 1/2 < (n : ℚ) + 1) :
    round x = n := by
  rw [round_eq]
  exact Int.floor_eq_iff.mpr ⟨h₁, h₂⟩

theorem toFixed2_zero : toFixed2 0 = 0 := by
  unfold toFixed2
  norm_num

theorem toFixed4_half : toFixed4 (1/2) = 1/2 := by
  unfold toFixed4
  rw [show ((1:ℚ)/2 * 10000) = ((5000 : ℤ) : ℚ) by norm_num, round_intCast]
  norm_num

/-! ### The market-buy routes never write the book -/

theorem marketBuyHypeRoute_book_eq (b : Book) (a : ℚ) : (marketBuyHypeRoute b a).2 = b := by
  unfold marketBuyHypeRoute
  cases executeMarketBuyHype b a <;> cases executeFlopBuyImpact b a <;> rfl

theorem marketBuyFlopRoute_book_eq (b : Book) (a : ℚ) : (marketBuyFlopRoute b a).2 = b := by
  unfold marketBuyFlopRoute
  cases executeMarketBuyFlop b a <;> cases executeHypeBuyImpact b a <;> rfl

/-- C1 (amended): a market buy performs no order-state update at all: whether
orders are fully or only partly consumed by the direct sweep, the book after
the POST /market-buy-hype or /market-buy-flop route is exactly the book
before it; no order is marked executed or partial and none is evicted. -/
theorem C1_market_buy_no_update : ∀ (book : Book) (amount : ℚ),
    (marketBuyHypeRoute book amount).2 = book ∧ (marketBuyFlopRoute book amount).2 = book :=
  fun book amount => ⟨marketBuyHypeRoute_book_eq book amount,
    marketBuyFlopRoute_book_eq book amount⟩

/-- C1 counterexample: on a book holding one HYPE sell of notional 5, a
market buy of 5 fully consumes that order's notional (the sweep reports 10
shares at price 0.50 with the budget exhausted), yet after the route the
order is still resting, unchanged, with status open - it is neither marked
executed nor removed, contradicting the claim. -/
theorem C1_counterexample :
    executeMarketBuyHype exBookC1 5 = MarketBuyResult.hit 10 (1/2) (some 0) ∧
    (marketBuyHypeRoute exBookC1 5).2 = exBookC1 ∧
    (⟨1, Side.sell, Asset.HYPE, 1/2, 5, 10, none, Status.stOpen⟩ : Order) ∈
      (marketBuyHypeRoute exBookC1 5).2 := by
  refine ⟨?_, marketBuyHypeRoute_book_eq _ _, ?_⟩
  · norm_num [executeMarketBuyHype, sortOrders, directLoop, exBookC1, min_def]
  · rw [marketBuyHypeRoute_book_eq]
    simp [exBookC1]

/-- C2 (amended): the cross-hedge computes the fill but mutates nothing.  In
the scenario of the claim (book = one FLOP buy at 0.70 for 100 shares,
marketBuy(HYPE, 15)) the route answers via the cross-hedge with
finalPrice = 0.30 and totalShares = 50, but the consumed FLOP buy order is
not decremented: it still rests with 100 shares and status open. -/
theorem C2_cross_hedge_no_mutation :
    marketBuyHypeRoute exBookC2 15 = (some (MarketBuyResult.hit 50 (3/10) none), exBookC2) ∧
    exBookC2 = [⟨2, Side.buy, Asset.FLOP, 7/10, 70, 100, none, Status.stOpen⟩] := by
  constructor
  · norm_num [marketBuyHypeRoute, executeMarketBuyHype, executeFlopBuyImpact, sortOrders,
      directLoop, crossLoop, jsPriceFinal, pickResult, exBookC2, min_def]
  · rfl

/-- C2 counterexample: in the scenario of the claim the cross-hedge fill
succeeds (50 shares at the synthetic price 0.30), but the consumed FLOP buy
order is left with 100 shares and status open, not with 50 shares and status
partial as the claim states. -/
theorem C2_counterexample :
    executeFlopBuyImpact exBookC2 15 = MarketBuyResult.hit 50 (3/10) none ∧
    (marketBuyHypeRoute exBookC2 15).2 =
      [⟨2, Side.buy, Asset.FLOP, 7/10, 70, 100, none, Status.stOpen⟩] ∧
    (100 : ℚ) ≠ 50 ∧ Status.stOpen ≠ Status.stPart := by
  refine ⟨?_, ?_, by norm_num, by simp⟩
  · norm_num [executeFlopBuyImpact, sortOrders, crossLoop, exBookC2, min_def]
  · rw [marketBuyHypeRoute_book_eq]
    rfl

/-- C3: the cross-hedge computes requiredShares from the ORIGINAL budget on
every iteration, not from the reduced remaining budget.  On a book with two
FLOP buys at 0.50 (10 and 100 shares) and budget 10, the second candidate is
charged requiredShares = 10 / 0.5 = 20 instead of 5 / 0.5 = 10, so the sweep
reports 30 shares whose cost at the synthetic price, 15, exceeds the
budget 10 (the spec-described computation would yield 20 shares). -/
theorem C3_requiredShares_from_original_budget :
    executeFlopBuyImpact exBookC3 10 = MarketBuyResult.hit 30 (1/2) none ∧
    (30 : ℚ) * (1/2) > 10 := by
  constructor
  · norm_num [executeFlopBuyImpact, sortOrders, crossLoop, exBookC3, min_def, priceGe]
  · norm_num

/-- C4: when the direct sweep succeeds but the cross-hedge reports an error,
the route's ternary compares a number with undefined, which is false, and the
route therefore answers 201 with the cross-hedge's ERROR object instead of
the direct sweep's successful result.  Concretely: one HYPE sell at 0.40 with
notional 4, market buy of 4: the direct sweep succeeds with 10 shares at
0.40, the cross-hedge fails, and the route returns the error object. -/
theorem C4_route_returns_error_body :
    executeMarketBuyHype exBookC4 4 = MarketBuyResult.hit 10 (2/5) (some 0) ∧
    executeFlopBuyImpact exBookC4 4 = MarketBuyResult.fail ∧
    marketBuyHypeRoute exBookC4 4 = (some MarketBuyResult.fail, exBookC4) := by
  refine ⟨?_, ?_, ?_⟩
  · norm_num [executeMarketBuyHype, sortOrders, directLoop, exBookC4, min_def]
  · norm_num [executeFlopBuyImpact, sortOrders, crossLoop, exBookC4]
  · norm_num [marketBuyHypeRoute, executeMarketBuyHype, executeFlopBuyImpact, sortOrders,
      directLoop, crossLoop, jsPriceFinal, pickResult, exBookC4, min_def]

/-- C5 (amended): a market BUY that fails with InsufficientLiquidity retains
no book mutation (the market-buy routes never write the book); a market SELL
that fails, however, retains the eager per-candidate mutations applied before
the shortfall was discovered, as the counterexample shows. -/
theorem C5_failed_market_buy_preserves_book : ∀ (book : Book) (amount : ℚ),
    ((marketBuyHypeRoute book amount).1 = none → (marketBuyHypeRoute book amount).2 = book) ∧
    ((marketBuyFlopRoute book amount).1 = none → (marketBuyFlopRoute book amount).2 = book) :=
  fun book amount => ⟨fun _ => marketBuyHypeRoute_book_eq book amount,
    fun _ => marketBuyFlopRoute_book_eq book amount⟩

theorem C5_failed_market_buy_preserves_book_witness :
    (marketBuyHypeRoute [] 1).1 = none ∧ (marketBuyHypeRoute [] 1).2 = [] := by
  have h1 : (marketBuyHypeRoute [] 1).1 = none := by
    norm_num [marketBuyHypeRoute, executeMarketBuyHype, executeFlopBuyImpact, sortOrders,
      directLoop, crossLoop]
  exact ⟨h1, (C5_failed_market_buy_preserves_book [] 1).1 h1⟩

/-- C5 counterexample: a market sell of 20 HYPE shares against a book whose
only buy has 10 shares fails with InsufficientLiquidity, yet the consumed
order's mutation is retained: its shares have been zeroed, its amount
recomputed to 0 and its status set to executed, so the book after the failed
call differs from the book before it. -/
theorem C5_counterexample :
    (marketSellHypeRoute exBookC5 20).1 = MarketSellRes.fail ∧
    (marketSellHypeRoute exBookC5 20).2 =
      [⟨6, Side.buy, Asset.HYPE, 1/2, 0, 0, none, Status.stExec⟩] ∧
    exBookC5 = [⟨6, Side.buy, Asset.HYPE, 1/2, 5, 10, none, Status.stOpen⟩] ∧
    (0 : ℚ) ≠ 10 := by
  have h : marketSellHypeRoute exBookC5 20 =
      (MarketSellRes.fail, [⟨6, Side.buy, Asset.HYPE, 1/2, 0, 0, none, Status.stExec⟩]) := by
    norm_num [marketSellHypeRoute, executeMarketSellHype, sortOrders, consumeOrders,
      applyUpdates, applyUpd, exBookC5, min_def, toFixed2_zero]
  refine ⟨by rw [h], by rw [h], rfl, by norm_num⟩

/-- C10: the four market-buy helper functions only read the book.  The two
market-buy routes call exactly executeMarketBuyHype, executeFlopBuyImpact,
executeMarketBuyFlop and executeHypeBuyImpact and perform no other book
access, and an order is in the book after such a route exactly when it was in
the book before, with all fields unchanged. -/
theorem C10_market_buy_helpers_read_only : ∀ (book : Book) (amount : ℚ) (o : Order),
    (o ∈ (marketBuyHypeRoute book amount).2 ↔ o ∈ book) ∧
    (o ∈ (marketBuyFlopRoute book amount).2 ↔ o ∈ book) := by
  intro book amount o
  rw [marketBuyHypeRoute_book_eq, marketBuyFlopRoute_book_eq]
  exact ⟨Iff.rfl, Iff.rfl⟩

/-! ### C6: the limit matching sweep -/

theorem consumeOrders_follows_spec : ∀ (cands : List Order) (r : ℚ),
    SweepFollowsSpec r cands (consumeOrders cands r).trades := by
  intro cands
  induction cands with
  | nil => exact fun r => SweepFollowsSpec.exhausted r
  | cons c cs ih =>
    intro r
    by_cases h : r ≤ 0
    · simp only [consumeOrders, if_pos h]
      exact SweepFollowsSpec.stop r c cs h
    · simp only [consumeOrders, if_neg h]
      exact SweepFollowsSpec.step r c cs _ _ (not_le.mp h) rfl rfl rfl rfl (ih _)

theorem consumeOrders_totalValue : ∀ (cands : List Order) (r : ℚ),
    (consumeOrders cands r).totalValue =
      ((consumeOrders cands r).trades.map fun t => t.executedShares * t.price).sum := by
  intro cands
  induction cands with
  | nil => intro r; simp [consumeOrders]
  | cons c cs ih =>
    intro r
    by_cases h : r ≤ 0
    · simp [consumeOrders, if_pos h]
    · simp only [consumeOrders, if_neg h, List.map_cons, List.sum_cons]
      rw [ih]

/-- C6: in limit matching the candidate sells for an incoming buy are swept
in ascending (best-first) price order and the candidate buys for an incoming
sell in descending (best-first) price order; every trade of the sweep
executes exactly min(remaining incoming shares, candidate shares) shares at
the CANDIDATE's resting price (never the incoming order's limit price),
transferring executed x candidate price; and the accumulated total value is
the sum over the trades of executed shares times the trade price. -/
theorem C6_limit_matching : ∀ (incoming : Order) (book : Book),
    List.Sorted priceLe (buyMatchCandidates incoming book) ∧
    List.Sorted priceGe (sellMatchCandidates incoming book) ∧
    SweepFollowsSpec incoming.shares (buyMatchCandidates incoming book)
      ((matchLimitBuyOrder incoming book).1.trades) ∧
    SweepFollowsSpec incoming.shares (sellMatchCandidates incoming book)
      ((matchLimitSellOrder incoming book).1.trades) ∧
    (∀ (cands : List Order) (r : ℚ),
      (consumeOrders cands r).totalValue =
        ((consumeOrders cands r).trades.map fun t => t.executedShares * t.price).sum) := by
  intro incoming book
  refine ⟨List.sorted_insertionSort priceLe _, List.sorted_insertionSort priceGe _,
    consumeOrders_follows_spec _ _, consumeOrders_follows_spec _ _,
    consumeOrders_totalValue⟩

/-! ### C9: executed orders and listOpenOrders -/

theorem toFixed2_three : toFixed2 3 = 3 := by
  unfold toFixed2
  rw [show ((3:ℚ) * 100) = ((300 : ℤ) : ℚ) by norm_num, round_intCast]
  norm_num

/-- C9 (amended): an executed order never appears in the result of
listOpenOrders, and after a SUCCESSFUL market sell no executed order remains
in the book; but a market sell that fails with InsufficientLiquidity returns
before the route's eviction filter runs, so the orders it fully consumed stay
in the book with status executed (see the counterexample). -/
theorem C9_no_executed_in_open_orders : ∀ (book : Book),
    (∀ o ∈ listOpenOrders book, o.status ≠ Status.stExec) ∧
    (∀ s : ℚ, (marketSellHypeRoute book s).1 ≠ MarketSellRes.fail →
      ∀ o ∈ (marketSellHypeRoute book s).2, o.status ≠ Status.stExec) ∧
    (∀ s : ℚ, (marketSellFlopRoute book s).1 ≠ MarketSellRes.fail →
      ∀ o ∈ (marketSellFlopRoute book s).2, o.status ≠ Status.stExec) := by
  intro book
  refine ⟨?_, ?_, ?_⟩
  · intro o h
    simp only [listOpenOrders, List.mem_filter, decide_eq_true_eq] at h
    exact h.2
  · intro s hfail o hmem
    unfold marketSellHypeRoute at hfail hmem
    rcases hE : executeMarketSellHype book s with ⟨res, b'⟩
    rw [hE] at hfail hmem
    cases res with
    | fail => exact absurd rfl hfail
    | ok a b c t =>
      have hm : o ∈ b'.filter fun o => decide (o.status ≠ Status.stExec) := hmem
      simp only [List.mem_filter, decide_eq_true_eq] at hm
      exact hm.2
  · intro s hfail o hmem
    unfold marketSellFlopRoute at hfail hmem
    rcases hE : executeMarketSellFlop book s with ⟨res, b'⟩
    rw [hE] at hfail hmem
    cases res with
    | fail => exact absurd rfl hfail
    | ok a b c t =>
      have hm : o ∈ b'.filter fun o => decide (o.status ≠ Status.stExec) := hmem
      simp only [List.mem_filter, decide_eq_true_eq] at hm
      exact hm.2

theorem C9_no_executed_in_open_orders_witness :
    ((⟨1, Side.buy, Asset.HYPE, 1/2, 0, 0, none, Status.stExec⟩ : Order) ∉
      listOpenOrders exBookExec) ∧
    (⟨2, Side.buy, Asset.HYPE, 1/2, 3, 6, none, Status.stPart⟩ : Order).status ≠
      Status.stExec := by
  have hroute : marketSellHypeRoute exBookW 4 =
      (MarketSellRes.ok 4 2 (1/2) [⟨2, 4, 1/2, 2⟩],
       [⟨2, Side.buy, Asset.HYPE, 1/2, 3, 6, none, Status.stPart⟩]) := by
    norm_num [marketSellHypeRoute, executeMarketSellHype, sortOrders, consumeOrders,
      applyUpdates, applyUpd, exBookW, min_def, toFixed4_half, toFixed2_three]
    decide
  constructor
  · intro hmem
    exact (C9_no_executed_in_open_orders exBookExec).1 _ hmem rfl
  · exact (C9_no_executed_in_open_orders exBookW).2.1 4 (by rw [hroute]; simp) _
      (by rw [hroute]; simp)

/-- C9 counterexample: a market sell of 25 HYPE shares against a single
resting buy of 10 shares consumes that order entirely (status executed) and
then fails with InsufficientLiquidity; the route returns without running the
eviction filter, so the executed order is still in the book after the
operation returns. -/
theorem C9_counterexample :
    (marketSellHypeRoute exBookC9 25).1 = MarketSellRes.fail ∧
    (⟨7, Side.buy, Asset.HYPE, 3/5, 0, 0, none, Status.stExec⟩ : Order) ∈
      (marketSellHypeRoute exBookC9 25).2 := by
  have h : marketSellHypeRoute exBookC9 25 =
      (MarketSellRes.fail, [⟨7, Side.buy, Asset.HYPE, 3/5, 0, 0, none, Status.stExec⟩]) := by
    norm_num [marketSellHypeRoute, executeMarketSellHype, sortOrders, consumeOrders,
      applyUpdates, applyUpd, exBookC9, min_def, toFixed2_zero]
  rw [h]
  exact ⟨rfl, by simp⟩

/-! ### C8: the book ordering invariant -/

theorem sidePrices_append (t : Side) (A B : Book) :
    sidePrices t (A ++ B) = sidePrices t A ++ sidePrices t B := by
  simp [sidePrices, List.filter_append]

theorem sidePrices_cons (t : Side) (x : Order) (xs : Book) :
    sidePrices t (x :: xs) =
      if x.type = t then x.price :: sidePrices t xs else sidePrices t xs := by
  by_cases h : x.type = t
  · simp [sidePrices, List.filter_cons, h]
  · simp [sidePrices, List.filter_cons, h]

theorem sidePrices_sublist (t : Side) {A B : Book} (h : List.Sublist A B) :
    List.Sublist (sidePrices t A) (sidePrices t B) :=
  (h.filter _).map _

theorem consumeOrders_updates_tp : ∀ (cands : List Order) (r : ℚ),
    ∀ p ∈ (consumeOrders cands r).updates,
      (p.2).type = (p.1).type ∧ (p.2).price = (p.1).price := by
  intro cands
  induction cands with
  | nil => intro r p hp; simp [consumeOrders] at hp
  | cons c cs ih =>
    intro r p hp
    by_cases h : r ≤ 0
    · simp [consumeOrders, if_pos h] at hp
    · simp only [consumeOrders, if_neg h, List.mem_cons] at hp
      rcases hp with hp | hp
      · subst hp; exact ⟨rfl, rfl⟩
      · exact ih _ p hp

theorem applyUpd_type_price (us : List (Order × Order))
    (h : ∀ p ∈ us, (p.2).type = (p.1).type ∧ (p.2).price = (p.1).price) (o : Order) :
    (applyUpd us o).type = o.type ∧ (applyUpd us o).price = o.price := by
  induction us with
  | nil => exact ⟨rfl, rfl⟩
  | cons p rest ih =>
    simp only [applyUpd]
    by_cases hp : p.1 = o
    · rw [if_pos hp]
      have h0 := h p (List.mem_cons_self p rest)
      rw [hp] at h0
      exact h0
    · rw [if_neg hp]
      exact ih fun q hq => h q (List.mem_cons_of_mem p hq)

theorem sidePrices_map (t : Side) (g : Order → Order)
    (hg : ∀ o, (g o).type = o.type ∧ (g o).price = o.price) :
    ∀ l : List Order, sidePrices t (l.map g) = sidePrices t l := by
  intro l
  induction l with
  | nil => rfl
  | cons o l ih =>
    rw [List.map_cons, sidePrices_cons, sidePrices_cons, (hg o).1, (hg o).2, ih]

theorem sidePrices_applyUpdates (t : Side) (us : List (Order × Order))
    (hus : ∀ p ∈ us, (p.2).type = (p.1).type ∧ (p.2).price = (p.1).price) (b : Book) :
    sidePrices t (applyUpdates us b) = sidePrices t b :=
  sidePrices_map t (applyUpd us) (applyUpd_type_price us hus) b

theorem ordered_applyUpdates (us : List (Order × Order))
    (hus : ∀ p ∈ us, (p.2).type = (p.1).type ∧ (p.2).price = (p.1).price) (b : Book)
    (hb : OrderedBook b) : OrderedBook (applyUpdates us b) := by
  constructor
  · rw [sidePrices_applyUpdates Side.buy us hus]
    exact hb.1
  · rw [sidePrices_applyUpdates Side.sell us hus]
    exact hb.2

theorem ordered_filter (q : Order → Bool) (b : Book) (hb : OrderedBook b) :
    OrderedBook (b.filter q) := by
  constructor
  · exact List.Pairwise.sublist (sidePrices_sublist Side.buy (List.filter_sublist b)) hb.1
  · exact List.Pairwise.sublist (sidePrices_sublist Side.sell (List.filter_sublist b)) hb.2

theorem mem_sortOrders_buy {o : Order} {b : Book} (h : o ∈ sortOrders b Side.buy) :
    o.type = Side.buy := by
  simp only [sortOrders, List.mem_insertionSort, List.mem_filter, decide_eq_true_eq] at h
  exact h.2

theorem mem_sortOrders_sell {o : Order} {b : Book} (h : o ∈ sortOrders b Side.sell) :
    o.type = Side.sell := by
  simp only [sortOrders, List.mem_insertionSort, List.mem_filter, decide_eq_true_eq] at h
  exact h.2

theorem sidePrices_buy_sortOrders_buy (b : Book) :
    sidePrices Side.buy (sortOrders b Side.buy) = (sortOrders b Side.buy).map Order.price := by
  unfold sidePrices
  rw [List.filter_eq_self.mpr]
  intro o ho
  simp [mem_sortOrders_buy ho]

theorem sidePrices_sell_sortOrders_buy (b : Book) :
    sidePrices Side.sell (sortOrders b Side.buy) = [] := by
  unfold sidePrices
  rw [List.filter_eq_nil_iff.mpr, List.map_nil]
  intro o ho
  simp [mem_sortOrders_buy ho]

theorem sidePrices_sell_sortOrders_sell (b : Book) :
    sidePrices Side.sell (sortOrders b Side.sell) = (sortOrders b Side.sell).map Order.price := by
  unfold sidePrices
  rw [List.filter_eq_self.mpr]
  intro o ho
  simp [mem_sortOrders_sell ho]

theorem sidePrices_buy_sortOrders_sell (b : Book) :
    sidePrices Side.buy (sortOrders b Side.sell) = [] := by
  unfold sidePrices
  rw [List.filter_eq_nil_iff.mpr, List.map_nil]
  intro o ho
  simp [mem_sortOrders_sell ho]

theorem sorted_map_price_buy {l : List Order} (h : List.Sorted priceGe l) :
    List.Sorted (fun x y : ℚ => y ≤ x) (l.map Order.price) :=
  List.pairwise_map.mpr h

theorem sorted_map_price_sell {l : List Order} (h : List.Sorted priceLe l) :
    List.Sorted (fun x y : ℚ => x ≤ y) (l.map Order.price) :=
  List.pairwise_map.mpr h

theorem ordered_updateSorted_buy (L : Book)
    (hsell : List.Sorted (fun x y : ℚ => x ≤ y) (sidePrices Side.sell L)) :
    OrderedBook (updateSortedOrders L Side.buy) := by
  constructor
  · show List.Sorted _ (sidePrices Side.buy
      (sortOrders L Side.buy ++ L.filter fun o => decide (o.type ≠ Side.buy)))
    rw [sidePrices_append, sidePrices_buy_sortOrders_buy]
    have h2 : sidePrices Side.buy (L.filter fun o => decide (o.type ≠ Side.buy)) = [] := by
      unfold sidePrices
      rw [List.filter_eq_nil_iff.mpr, List.map_nil]
      intro o ho
      simp only [List.mem_filter, decide_eq_true_eq] at ho
      simp [ho.2]
    rw [h2, List.append_nil]
    exact sorted_map_price_buy (List.sorted_insertionSort priceGe _)
  · show List.Sorted _ (sidePrices Side.sell
      (sortOrders L Side.buy ++ L.filter fun o => decide (o.type ≠ Side.buy)))
    rw [sidePrices_append, sidePrices_sell_sortOrders_buy, List.nil_append]
    exact List.Pairwise.sublist (sidePrices_sublist _ (List.filter_sublist L)) hsell

theorem ordered_updateSorted_sell (L : Book)
    (hbuy : List.Sorted (fun x y : ℚ => y ≤ x) (sidePrices Side.buy L)) :
    OrderedBook (updateSortedOrders L Side.sell) := by
  constructor
  · show List.Sorted _ (sidePrices Side.buy
      ((L.filter fun o => decide (o.type ≠ Side.sell)) ++ sortOrders L Side.sell))
    rw [sidePrices_append, sidePrices_buy_sortOrders_sell, List.append_nil]
    exact List.Pairwise.sublist (sidePrices_sublist _ (List.filter_sublist L)) hbuy
  · show List.Sorted _ (sidePrices Side.sell
      ((L.filter fun o => decide (o.type ≠ Side.sell)) ++ sortOrders L Side.sell))
    rw [sidePrices_append, sidePrices_sell_sortOrders_sell]
    have h2 : sidePrices Side.sell (L.filter fun o => decide (o.type ≠ Side.sell)) = [] := by
      unfold sidePrices
      rw [List.filter_eq_nil_iff.mpr, List.map_nil]
      intro o ho
      simp only [List.mem_filter, decide_eq_true_eq] at ho
      simp [ho.2]
    rw [h2, List.nil_append]
    exact sorted_map_price_sell (List.sorted_insertionSort priceLe _)

theorem matchLimitBuyOrder_book (nb : Order) (b : Book) :
    (matchLimitBuyOrder nb b).2 =
      applyUpdates (consumeOrders (buyMatchCandidates nb b) nb.shares).updates b := rfl

theorem matchLimitSellOrder_book (ns : Order) (b : Book) :
    (matchLimitSellOrder ns b).2 =
      applyUpdates (consumeOrders (sellMatchCandidates ns b) ns.shares).updates b := rfl

theorem matchLimitBuyOrder_rem (nb : Order) (b : Book) {rem : Order}
    (h : (matchLimitBuyOrder nb b).1.remainingOrder = some rem) :
    rem.type = nb.type ∧ rem.price = nb.price ∧
      rem.amount = toFixed2 (rem.shares * rem.price) ∧ 0 < rem.shares := by
  have h' : (if 0 < (consumeOrders (buyMatchCandidates nb b) nb.shares).remaining then
      some { nb with
              shares := (consumeOrders (buyMatchCandidates nb b) nb.shares).remaining
              amount := toFixed2
                ((consumeOrders (buyMatchCandidates nb b) nb.shares).remaining * nb.price)
              status := Status.stPart }
    else none) = some rem := h
  by_cases hr : 0 < (consumeOrders (buyMatchCandidates nb b) nb.shares).remaining
  · rw [if_pos hr, Option.some.injEq] at h'
    subst h'
    exact ⟨rfl, rfl, rfl, hr⟩
  · rw [if_neg hr] at h'
    exact absurd h' (by simp)

theorem matchLimitSellOrder_rem (ns : Order) (b : Book) {rem : Order}
    (h : (matchLimitSellOrder ns b).1.remainingOrder = some rem) :
    rem.type = ns.type ∧ rem.price = ns.price ∧
      rem.amount = toFixed2 (rem.shares * rem.price) ∧ 0 < rem.shares := by
  have h' : (if 0 < (consumeOrders (sellMatchCandidates ns b) ns.shares).remaining then
      some { ns with
              shares := (consumeOrders (sellMatchCandidates ns b) ns.shares).remaining
              amount := toFixed2
                ((consumeOrders (sellMatchCandidates ns b) ns.shares).remaining * ns.price)
              potentialGain := some (toFixed2
                ((consumeOrders (sellMatchCandidates ns b) ns.shares).remaining * ns.price))
              status := Status.stPart }
    else none) = some rem := h
  by_cases hr : 0 < (consumeOrders (sellMatchCandidates ns b) ns.shares).remaining
  · rw [if_pos hr, Option.some.injEq] at h'
    subst h'
    exact ⟨rfl, rfl, rfl, hr⟩
  · rw [if_neg hr] at h'
    exact absurd h' (by simp)

theorem buyRoute_book_cases (b : Book) (A : Asset) (p a : ℚ) (i : ℕ) :
    (buyRoute b A p a i).2 = b ∨
    (¬(p ≤ 0 ∨ 1 < p) ∧ ∃ rem : Order,
      (matchLimitBuyOrder ⟨i, Side.buy, A, p, a, toFixed4 (a / p), none, Status.stOpen⟩
          b).1.remainingOrder = some rem ∧
      (buyRoute b A p a i).2 =
        updateSortedOrders
          (((matchLimitBuyOrder ⟨i, Side.buy, A, p, a, toFixed4 (a / p), none,
              Status.stOpen⟩ b).2.filter fun o => decide (o.status ≠ Status.stExec)) ++ [rem])
          Side.buy) ∨
    (¬(p ≤ 0 ∨ 1 < p) ∧ (buyRoute b A p a i).2 =
      (matchLimitBuyOrder ⟨i, Side.buy, A, p, a, toFixed4 (a / p), none,
        Status.stOpen⟩ b).2.filter fun o => decide (o.status ≠ Status.stExec)) ∨
    (¬(p ≤ 0 ∨ 1 < p) ∧ (buyRoute b A p a i).2 =
      updateSortedOrders (b ++ [⟨i, Side.buy, A, p, a, toFixed4 (a / p), none, Status.stOpen⟩])
        Side.buy) := by
  unfold buyRoute
  split
  · exact Or.inl rfl
  · next hv =>
    dsimp only
    split
    · split
      · next rem heq => exact Or.inr (Or.inl ⟨hv, rem, heq, rfl⟩)
      · exact Or.inr (Or.inr (Or.inl ⟨hv, rfl⟩))
    · exact Or.inr (Or.inr (Or.inr ⟨hv, rfl⟩))

theorem sellRoute_book_cases (b : Book) (A : Asset) (p s : ℚ) (i : ℕ) :
    (sellRoute b A p s i).2 = b ∨
    (¬(p ≤ 0 ∨ 1 < p) ∧ ∃ rem : Order,
      (matchLimitSellOrder ⟨i, Side.sell, A, p, toFixed2 (s * p), s, some (toFixed2 (s * p)),
          Status.stOpen⟩ b).1.remainingOrder = some rem ∧
      (sellRoute b A p s i).2 =
        updateSortedOrders
          (((matchLimitSellOrder ⟨i, Side.sell, A, p, toFixed2 (s * p), s,
              some (toFixed2 (s * p)), Status.stOpen⟩ b).2.filter fun o =>
                decide (o.status ≠ Status.stExec)) ++ [rem])
          Side.sell) ∨
    (¬(p ≤ 0 ∨ 1 < p) ∧ (sellRoute b A p s i).2 =
      (matchLimitSellOrder ⟨i, Side.sell, A, p, toFixed2 (s * p), s, some (toFixed2 (s * p)),
        Status.stOpen⟩ b).2.filter fun o => decide (o.status ≠ Status.stExec)) ∨
    (¬(p ≤ 0 ∨ 1 < p) ∧ (sellRoute b A p s i).2 =
      updateSortedOrders
        (b ++ [⟨i, Side.sell, A, p, toFixed2 (s * p), s, some (toFixed2 (s * p)),
          Status.stOpen⟩]) Side.sell) := by
  unfold sellRoute
  split
  · exact Or.inl rfl
  · next hv =>
    dsimp only
    split
    · split
      · next rem heq => exact Or.inr (Or.inl ⟨hv, rem, heq, rfl⟩)
      · exact Or.inr (Or.inr (Or.inl ⟨hv, rfl⟩))
    · exact Or.inr (Or.inr (Or.inr ⟨hv, rfl⟩))

theorem executeMarketSellHype_book (b : Book) (s : ℚ) :
    (executeMarketSellHype b s).2 =
      applyUpdates (consumeOrders ((sortOrders b Side.buy).filter fun o =>
        decide (o.asset = Asset.HYPE)) s).updates b := by
  unfold executeMarketSellHype
  dsimp only
  split <;> rfl

theorem executeMarketSellFlop_book (b : Book) (s : ℚ) :
    (executeMarketSellFlop b s).2 =
      applyUpdates (consumeOrders ((sortOrders b Side.buy).filter fun o =>
        decide (o.asset = Asset.FLOP)) s).updates b := by
  unfold executeMarketSellFlop
  dsimp only
  split <;> rfl

theorem marketSellHypeRoute_book_cases (b : Book) (s : ℚ) :
    (marketSellHypeRoute b s).2 = (executeMarketSellHype b s).2 ∨
    (marketSellHypeRoute b s).2 =
      (executeMarketSellHype b s).2.filter fun o => decide (o.status ≠ Status.stExec) := by
  unfold marketSellHypeRoute
  rcases executeMarketSellHype b s with ⟨res, b'⟩
  cases res
  · exact Or.inl rfl
  · exact Or.inr rfl

theorem marketSellFlopRoute_book_cases (b : Book) (s : ℚ) :
    (marketSellFlopRoute b s).2 = (executeMarketSellFlop b s).2 ∨
    (marketSellFlopRoute b s).2 =
      (executeMarketSellFlop b s).2.filter fun o => decide (o.status ≠ Status.stExec) := by
  unfold marketSellFlopRoute
  rcases executeMarketSellFlop b s with ⟨res, b'⟩
  cases res
  · exact Or.inl rfl
  · exact Or.inr rfl

theorem ordered_matchLimitBuyOrder (nb : Order) (b : Book) (hb : OrderedBook b) :
    OrderedBook ((matchLimitBuyOrder nb b).2) := by
  rw [matchLimitBuyOrder_book]
  exact ordered_applyUpdates _ (consumeOrders_updates_tp _ _) b hb

theorem ordered_matchLimitSellOrder (ns : Order) (b : Book) (hb : OrderedBook b) :
    OrderedBook ((matchLimitSellOrder ns b).2) := by
  rw [matchLimitSellOrder_book]
  exact ordered_applyUpdates _ (consumeOrders_updates_tp _ _) b hb

theorem ordered_buyRoute (b : Book) (A : Asset) (p a : ℚ) (i : ℕ) (hb : OrderedBook b) :
    OrderedBook ((buyRoute b A p a i).2) := by
  rcases buyRoute_book_cases b A p a i with h | ⟨hv, rem, hrem, h⟩ | ⟨hv, h⟩ | ⟨hv, h⟩
  · rw [h]; exact hb
  · rw [h]
    apply ordered_updateSorted_buy
    rw [sidePrices_append]
    have htype : rem.type = Side.buy := (matchLimitBuyOrder_rem _ _ hrem).1
    have hrem0 : sidePrices Side.sell [rem] = [] := by
      rw [sidePrices_cons, if_neg (by rw [htype]; simp)]
      rfl
    rw [hrem0, List.append_nil]
    exact (ordered_filter _ _ (ordered_matchLimitBuyOrder _ b hb)).2
  · rw [h]
    exact ordered_filter _ _ (ordered_matchLimitBuyOrder _ b hb)
  · rw [h]
    apply ordered_updateSorted_buy
    rw [sidePrices_append]
    have hnew : sidePrices Side.sell
        [(⟨i, Side.buy, A, p, a, toFixed4 (a / p), none, Status.stOpen⟩ : Order)] = [] := by
      rw [sidePrices_cons, if_neg (by simp)]
      rfl
    rw [hnew, List.append_nil]
    exact hb.2

theorem ordered_sellRoute (b : Book) (A : Asset) (p s : ℚ) (i : ℕ) (hb : OrderedBook b) :
    OrderedBook ((sellRoute b A p s i).2) := by
  rcases sellRoute_book_cases b A p s i with h | ⟨hv, rem, hrem, h⟩ | ⟨hv, h⟩ | ⟨hv, h⟩
  · rw [h]; exact hb
  · rw [h]
    apply ordered_updateSorted_sell
    rw [sidePrices_append]
    have htype : rem.type = Side.sell := (matchLimitSellOrder_rem _ _ hrem).1
    have hrem0 : sidePrices Side.buy [rem] = [] := by
      rw [sidePrices_cons, if_neg (by rw [htype]; simp)]
      rfl
    rw [hrem0, List.append_nil]
    exact (ordered_filter _ _ (ordered_matchLimitSellOrder _ b hb)).1
  · rw [h]
    exact ordered_filter _ _ (ordered_matchLimitSellOrder _ b hb)
  · rw [h]
    apply ordered_updateSorted_sell
    rw [sidePrices_append]
    have hnew : sidePrices Side.buy
        [(⟨i, Side.sell, A, p, toFixed2 (s * p), s, some (toFixed2 (s * p)),
          Status.stOpen⟩ : Order)] = [] := by
      rw [sidePrices_cons, if_neg (by simp)]
      rfl
    rw [hnew, List.append_nil]
    exact hb.1

theorem ordered_marketSellHypeRoute (b : Book) (s : ℚ) (hb : OrderedBook b) :
    OrderedBook ((marketSellHypeRoute b s).2) := by
  rcases marketSellHypeRoute_book_cases b s with h | h <;> rw [h, executeMarketSellHype_book]
  · exact ordered_applyUpdates _ (consumeOrders_updates_tp _ _) b hb
  · exact ordered_filter _ _ (ordered_applyUpdates _ (consumeOrders_updates_tp _ _) b hb)

theorem ordered_marketSellFlopRoute (b : Book) (s : ℚ) (hb : OrderedBook b) :
    OrderedBook ((marketSellFlopRoute b s).2) := by
  rcases marketSellFlopRoute_book_cases b s with h | h <;> rw [h, executeMarketSellFlop_book]
  · exact ordered_applyUpdates _ (consumeOrders_updates_tp _ _) b hb
  · exact ordered_filter _ _ (ordered_applyUpdates _ (consumeOrders_updates_tp _ _) b hb)

theorem ordered_applyOp (b : Book) (op : Op) (hb : OrderedBook b) :
    OrderedBook (applyOp b op) := by
  cases op with
  | limitBuy A p m i => exact ordered_buyRoute b A p m i hb
  | limitSell A p s i => exact ordered_sellRoute b A p s i hb
  | mBuyHype m =>
    show OrderedBook ((marketBuyHypeRoute b m).2)
    rw [marketBuyHypeRoute_book_eq]
    exact hb
  | mBuyFlop m =>
    show OrderedBook ((marketBuyFlopRoute b m).2)
    rw [marketBuyFlopRoute_book_eq]
    exact hb
  | mSellHype s => exact ordered_marketSellHypeRoute b s hb
  | mSellFlop s => exact ordered_marketSellFlopRoute b s hb

/-- C8: after every operation (limit placement with or without matching,
market buy, market sell) the book reachable from the empty book keeps the
ordering invariant: the sell-side subsequence is non-decreasing by price and
the buy-side subsequence is non-increasing by price. -/
theorem C8_ordering_invariant : ∀ (b : Book), Reachable b → OrderedBook b := by
  intro b h
  induction h with
  | nil => exact ⟨List.sorted_nil, List.sorted_nil⟩
  | step b' op hr ih => exact ordered_applyOp b' op ih

theorem C8_ordering_invariant_witness :
    OrderedBook (applyOp [] (Op.limitSell Asset.HYPE (2/5) 10 1)) :=
  C8_ordering_invariant _ (Reachable.step [] (Op.limitSell Asset.HYPE (2/5) 10 1) Reachable.nil)

/-! ### C7: the notional invariant -/

theorem round_int_add_small (n : ℤ) (t : ℚ) (h : |t| < 1/2) : round ((n : ℚ) + t) = n := by
  rw [add_comm, round_add_int]
  have ht : round t = 0 := by
    rw [round_eq]
    refine Int.floor_eq_zero_iff.mpr ?_
    rcases abs_lt.mp h with ⟨h1, h2⟩
    constructor
    · linarith
    · show t + 1/2 < 1
      linarith
  rw [ht, zero_add]

theorem toFixed4_err (x : ℚ) : |toFixed4 x - x| ≤ 1/20000 := by
  unfold toFixed4
  have h : |x * 10000 - round (x * 10000)| ≤ 1/2 := abs_sub_round (x * 10000)
  have heq : ((round (x * 10000) : ℤ) : ℚ) / 10000 - x =
      -(x * 10000 - ((round (x * 10000) : ℤ) : ℚ)) / 10000 := by ring
  rw [heq, abs_div, abs_neg, abs_of_pos (by norm_num : (0:ℚ) < 10000)]
  linarith

/-- A caller-supplied notional that is a whole number of cents survives the
round trip amount -> shares = round(amount/price, 4) -> round(shares x price, 2)
whenever the price lies in the validated interval (0, 1]. -/
theorem toFixed2_roundtrip (p a : ℚ) (hp0 : 0 < p) (hp1 : p ≤ 1) (k : ℤ)
    (hk : a = (k : ℚ) / 100) : toFixed2 (toFixed4 (a / p) * p) = a := by
  have hxp : a / p * p = a := div_mul_cancel₀ a hp0.ne'
  have h2 : |toFixed4 (a / p) * p - a| ≤ 1/20000 := by
    have heq : toFixed4 (a / p) * p - a = (toFixed4 (a / p) - a / p) * p := by
      rw [sub_mul, hxp]
    rw [heq, abs_mul, abs_of_pos hp0]
    calc |toFixed4 (a / p) - a / p| * p ≤ (1/20000) * 1 :=
          mul_le_mul (toFixed4_err (a / p)) hp1 hp0.le (by norm_num)
      _ = 1/20000 := by norm_num
  unfold toFixed2
  have harg : toFixed4 (a / p) * p * 100 = (k : ℚ) + (toFixed4 (a / p) * p - a) * 100 := by
    rw [hk]
    ring
  rw [harg, round_int_add_small k _ (by
    rw [abs_mul, abs_of_pos (by norm_num : (0:ℚ) < 100)]
    calc |toFixed4 (a / p) * p - a| * 100 ≤ (1/20000) * 100 := by
          exact mul_le_mul_of_nonneg_right h2 (by norm_num)
      _ < 1/2 := by norm_num)]
  rw [hk]

theorem toFixed4_nonneg {x : ℚ} (hx : 0 ≤ x) : 0 ≤ toFixed4 x := by
  unfold toFixed4
  have h : (0:ℤ) ≤ round (x * 10000) := by
    rw [round_eq]
    exact Int.floor_nonneg.mpr (by linarith)
  have h' : (0:ℚ) ≤ ((round (x * 10000) : ℤ) : ℚ) := by exact_mod_cast h
  linarith

theorem consumeOrders_updates_inv : ∀ (cands : List Order) (r : ℚ),
    ∀ p ∈ (consumeOrders cands r).updates, OrderInv p.2 := by
  intro cands
  induction cands with
  | nil => intro r p hp; simp [consumeOrders] at hp
  | cons c cs ih =>
    intro r p hp
    by_cases h : r ≤ 0
    · simp [consumeOrders, if_pos h] at hp
    · simp only [consumeOrders, if_neg h, List.mem_cons] at hp
      rcases hp with hp | hp
      · subst hp
        exact ⟨rfl, sub_nonneg.mpr (min_le_right r c.shares)⟩
      · exact ih _ p hp

theorem applyUpd_inv (us : List (Order × Order)) (hus : ∀ p ∈ us, OrderInv p.2)
    (o : Order) (ho : OrderInv o) : OrderInv (applyUpd us o) := by
  induction us with
  | nil => exact ho
  | cons p rest ih =>
    simp only [applyUpd]
    by_cases hp : p.1 = o
    · rw [if_pos hp]
      exact hus p (List.mem_cons_self p rest)
    · rw [if_neg hp]
      exact ih fun q hq => hus q (List.mem_cons_of_mem p hq)

theorem bookInv_applyUpdates (us : List (Order × Order)) (hus : ∀ p ∈ us, OrderInv p.2)
    (b : Book) (hb : BookInv b) : BookInv (applyUpdates us b) := by
  intro o ho
  rcases List.mem_map.mp ho with ⟨o0, ho0, rfl⟩
  exact applyUpd_inv us hus o0 (hb o0 ho0)

theorem bookInv_filter (q : Order → Bool) (b : Book) (hb : BookInv b) :
    BookInv (b.filter q) :=
  fun o ho => hb o (List.mem_of_mem_filter ho)

theorem mem_sortOrders {o : Order} {b : Book} {t : Side} (h : o ∈ sortOrders b t) : o ∈ b := by
  cases t <;>
    simp only [sortOrders, List.mem_insertionSort, List.mem_filter, decide_eq_true_eq] at h <;>
    exact h.1

theorem bookInv_updateSorted (L : Book) (t : Side) (hL : BookInv L) :
    BookInv (updateSortedOrders L t) := by
  intro o ho
  cases t with
  | buy =>
    rcases List.mem_append.mp ho with h | h
    · exact hL o (mem_sortOrders h)
    · exact hL o (List.mem_of_mem_filter h)
  | sell =>
    rcases List.mem_append.mp ho with h | h
    · exact hL o (List.mem_of_mem_filter h)
    · exact hL o (mem_sortOrders h)

theorem bookInv_matchLimitBuyOrder (nb : Order) (b : Book) (hb : BookInv b) :
    BookInv ((matchLimitBuyOrder nb b).2) := by
  rw [matchLimitBuyOrder_book]
  exact bookInv_applyUpdates _ (consumeOrders_updates_inv _ _) b hb

theorem bookInv_matchLimitSellOrder (ns : Order) (b : Book) (hb : BookInv b) :
    BookInv ((matchLimitSellOrder ns b).2) := by
  rw [matchLimitSellOrder_book]
  exact bookInv_applyUpdates _ (consumeOrders_updates_inv _ _) b hb

theorem bookInv_buyRoute (b : Book) (A : Asset) (p a : ℚ) (i : ℕ) (hb : BookInv b)
    (ha0 : 0 ≤ a) (hak : ∃ k : ℤ, a = (k : ℚ) / 100) :
    BookInv ((buyRoute b A p a i).2) := by
  rcases buyRoute_book_cases b A p a i with h | ⟨hv, rem, hrem, h⟩ | ⟨hv, h⟩ | ⟨hv, h⟩
  · rw [h]; exact hb
  · rw [h]
    apply bookInv_updateSorted
    intro o ho
    rcases List.mem_append.mp ho with h' | h'
    · exact bookInv_filter _ _ (bookInv_matchLimitBuyOrder _ b hb) o h'
    · rcases matchLimitBuyOrder_rem _ _ hrem with ⟨_, _, hamt, hpos⟩
      rcases List.mem_singleton.mp h' with rfl
      exact ⟨hamt, le_of_lt hpos⟩
  · rw [h]
    exact bookInv_filter _ _ (bookInv_matchLimitBuyOrder _ b hb)
  · rw [h]
    apply bookInv_updateSorted
    intro o ho
    rcases List.mem_append.mp ho with h' | h'
    · exact hb o h'
    · rcases List.mem_singleton.mp h' with rfl
      have hp0 : 0 < p := by
        rcases not_or.mp hv with ⟨h1, _⟩
        exact lt_of_not_le h1
      have hp1 : p ≤ 1 := by
        rcases not_or.mp hv with ⟨_, h2⟩
        exact le_of_not_lt h2
      rcases hak with ⟨k, hk⟩
      refine ⟨?_, toFixed4_nonneg (div_nonneg ha0 hp0.le)⟩
      show a = toFixed2 (toFixed4 (a / p) * p)
      exact (toFixed2_roundtrip p a hp0 hp1 k hk).symm

theorem bookInv_sellRoute (b : Book) (A : Asset) (p s : ℚ) (i : ℕ) (hb : BookInv b)
    (hs0 : 0 ≤ s) : BookInv ((sellRoute b A p s i).2) := by
  rcases sellRoute_book_cases b A p s i with h | ⟨hv, rem, hrem, h⟩ | ⟨hv, h⟩ | ⟨hv, h⟩
  · rw [h]; exact hb
  · rw [h]
    apply bookInv_updateSorted
    intro o ho
    rcases List.mem_append.mp ho with h' | h'
    · exact bookInv_filter _ _ (bookInv_matchLimitSellOrder _ b hb) o h'
    · rcases matchLimitSellOrder_rem _ _ hrem with ⟨_, _, hamt, hpos⟩
      rcases List.mem_singleton.mp h' with rfl
      exact ⟨hamt, le_of_lt hpos⟩
  · rw [h]
    exact bookInv_filter _ _ (bookInv_matchLimitSellOrder _ b hb)
  · rw [h]
    apply bookInv_updateSorted
    intro o ho
    rcases List.mem_append.mp ho with h' | h'
    · exact hb o h'
    · rcases List.mem_singleton.mp h' with rfl
      exact ⟨rfl, hs0⟩

theorem bookInv_marketSellHypeRoute (b : Book) (s : ℚ) (hb : BookInv b) :
    BookInv ((marketSellHypeRoute b s).2) := by
  rcases marketSellHypeRoute_book_cases b s with h | h <;> rw [h, executeMarketSellHype_book]
  · exact bookInv_applyUpdates _ (consumeOrders_updates_inv _ _) b hb
  · exact bookInv_filter _ _ (bookInv_applyUpdates _ (consumeOrders_updates_inv _ _) b hb)

theorem bookInv_marketSellFlopRoute (b : Book) (s : ℚ) (hb : BookInv b) :
    BookInv ((marketSellFlopRoute b s).2) := by
  rcases marketSellFlopRoute_book_cases b s with h | h <;> rw [h, executeMarketSellFlop_book]
  · exact bookInv_applyUpdates _ (consumeOrders_updates_inv _ _) b hb
  · exact bookInv_filter _ _ (bookInv_applyUpdates _ (consumeOrders_updates_inv _ _) b hb)

theorem bookInv_applyOp (b : Book) (op : Op) (hb : BookInv b) (hop : OpOk op) :
    BookInv (applyOp b op) := by
  cases op with
  | limitBuy A p m i => exact bookInv_buyRoute b A p m i hb hop.1 hop.2
  | limitSell A p s i => exact bookInv_sellRoute b A p s i hb hop
  | mBuyHype m =>
    show BookInv ((marketBuyHypeRoute b m).2)
    rw [marketBuyHypeRoute_book_eq]
    exact hb
  | mBuyFlop m =>
    show BookInv ((marketBuyFlopRoute b m).2)
    rw [marketBuyFlopRoute_book_eq]
    exact hb
  | mSellHype s => exact bookInv_marketSellHypeRoute b s hb
  | mSellFlop s => exact bookInv_marketSellFlopRoute b s hb

/-- C7 (amended): the notional invariant amount = round(shares x price, 2)
and shares >= 0 holds for every order of every book reachable from the empty
book by well-formed operations, i.e. operations whose caller-supplied limit
BUY notional is a non-negative whole number of cents and whose caller-supplied
limit SELL share count is non-negative.  (For a caller-supplied buy notional
that is not on the cent grid the invariant fails on the freshly rested order,
see the counterexample.) -/
theorem C7_notional_invariant : ∀ (b : Book), ReachableOk b → BookInv b := by
  intro b h
  induction h with
  | nil => intro o ho; cases ho
  | step b' op hr hop ih => exact bookInv_applyOp b' op ih hop

theorem C7_notional_invariant_witness :
    BookInv (applyOp [] (Op.limitSell Asset.HYPE (2/5) 10 1)) :=
  C7_notional_invariant _
    (ReachableOk.step [] (Op.limitSell Asset.HYPE (2/5) 10 1) ReachableOk.nil
      (by norm_num [OpOk]))

/-- C7 counterexample: the POST /buy route only checks the price range, not
the shape of the notional.  Resting a limit buy with price 1 and notional
1.234 (not a whole number of cents) on the empty book produces a book whose
single order has amount 1.234 but round(shares x price, 2) = 1.23, violating
the claimed invariant. -/
theorem C7_counterexample :
    (buyRoute [] Asset.HYPE 1 (617/500) 9).2 =
      [⟨9, Side.buy, Asset.HYPE, 1, 617/500, 617/500, none, Status.stOpen⟩] ∧
    (⟨9, Side.buy, Asset.HYPE, 1, 617/500, 617/500, none, Status.stOpen⟩ : Order).amount ≠
      toFixed2 ((⟨9, Side.buy, Asset.HYPE, 1, 617/500, 617/500, none,
        Status.stOpen⟩ : Order).shares *
        (⟨9, Side.buy, Asset.HYPE, 1, 617/500, 617/500, none, Status.stOpen⟩ : Order).price) := by
  have h4 : toFixed4 ((617:ℚ)/500) = 617/500 := by
    unfold toFixed4
    rw [show ((617:ℚ)/500 * 10000) = ((12340 : ℤ) : ℚ) by norm_num, round_intCast]
    norm_num
  have h2 : toFixed2 ((617:ℚ)/500) = 123/100 := by
    unfold toFixed2
    rw [show ((617:ℚ)/500 * 100) = ((617:ℚ)/5) by norm_num,
      roundEval ((617:ℚ)/5) 123 (by norm_num) (by norm_num)]
    norm_num
  constructor
  · norm_num [buyRoute, updateSortedOrders, sortOrders, h4, priceGe]
  · show (617:ℚ)/500 ≠ toFixed2 ((617:ℚ)/500 * 1)
    rw [mul_one, h2]
    norm_num
